import Mathlib

/-!
# lustrefuse: the FUSE callback layer over the sysio backing library

A shallow embedding of `lustrefuse.c`.  Every handler is a state transformer
over a `Machine`: the malloc heap, the global `lustre_mountpoint`, `errno`,
the state of the backing library and a log of every allocation, release,
backing-library call and filler callback.  A handler that would run into
undefined behaviour (reading a string with no terminator, writing outside a
buffer, touching a released block) yields `none`.

Bytes are natural numbers (a `char` holds a value below 256; no operation of
the program does arithmetic on them).  C `int` values are integers; the
conversions the source performs between `int`, `size_t`, `ssize_t` and the
64-bit `fh` field are spelled out with explicit moduli.
-/

namespace LustreFuse

/-! ## C integer conversions -/

/-- Conversion of an integer value to the C type `int` (32-bit two's complement). -/
def toInt32 (x : Int) : Int := (x + 2147483648) % 4294967296 - 2147483648

/-- Conversion of an integer value to `uint64_t` (also `size_t`). -/
def toUInt64 (x : Int) : Nat := (x % 18446744073709551616).toNat

/-! ## Errno values, open flags and file-type bits

The program takes these from `<errno.h>`, `<fcntl.h>` and `<sys/stat.h>`; the
values are those of Linux. The handlers use them by name only. -/

/-- Errno value `ENOSYS`, "function not implemented". -/
def ENOSYS : Int := 38

/-- Errno value `EBADF`, "bad file descriptor". -/
def EBADF : Int := 9

/-- Errno value `ENOENT`, "no such file or directory". -/
def ENOENT : Int := 2

/-- Open flag `O_WRONLY`. -/
def O_WRONLY : Nat := 1

/-- Open flag `O_CREAT` (octal 100). -/
def O_CREAT : Nat := 64

/-- Open flag `O_EXCL` (octal 200). -/
def O_EXCL : Nat := 128

/-- Mask `S_IFMT` of the file-type bits of a mode (octal 170000). -/
def S_IFMT : Nat := 61440

/-- File type `S_IFREG`, regular file (octal 100000). -/
def S_IFREG : Nat := 32768

/-- File type `S_IFIFO`, named pipe (octal 10000). -/
def S_IFIFO : Nat := 4096

/-- The `S_ISREG` test of `<sys/stat.h>`. -/
def S_ISREG (mode : Nat) : Bool := (mode &&& S_IFMT) == S_IFREG

/-- The `S_ISFIFO` test of `<sys/stat.h>`. -/
def S_ISFIFO (mode : Nat) : Bool := (mode &&& S_IFMT) == S_IFIFO

/-! ## C strings and buffers -/

/-- Length of the C string starting a buffer: the number of bytes before the
first NUL.  A buffer with no NUL has no length (the read runs off its end). -/
def strlen : List Nat → Option Nat
  | [] => none
  | b :: bs => if b = 0 then some 0 else (strlen bs).map (· + 1)

/-- The C string starting a buffer: its bytes up to the first NUL. -/
def cstr (buf : List Nat) : Option (List Nat) :=
  (strlen buf).map (fun n => buf.take n)

/-- Copy of the first `n` bytes of `src` to offset `off` of `dst`; `none` when
the copy would leave either buffer. -/
def memcpy (dst : List Nat) (off : Nat) (src : List Nat) (n : Nat) : Option (List Nat) :=
  if off + n ≤ dst.length ∧ n ≤ src.length then
    some (dst.take off ++ src.take n ++ dst.drop (off + n))
  else none

/-- Store of one byte at index `i`; `none` outside the buffer. -/
def store (buf : List Nat) (i : Nat) (v : Nat) : Option (List Nat) :=
  if i < buf.length then some (buf.set i v) else none

/-- Store of one byte at a C `int` index, as in `buf[res] = v`; a negative
index lies outside the buffer. -/
def storeAt (buf : List Nat) (i : Int) (v : Nat) : Option (List Nat) :=
  if 0 ≤ i then store buf i.toNat v else none

/-! ## The backing library -/

/-- A directory entry as the handler reads it: `d_ino`, `d_type`, `d_name`. -/
structure Dirent where
  d_ino : Nat
  d_type : Nat
  d_name : List Nat
  deriving DecidableEq, Repr

/-- The fields of `struct stat`. -/
structure Stat where
  st_dev : Nat
  st_ino : Nat
  st_mode : Nat
  st_nlink : Nat
  st_uid : Nat
  st_gid : Nat
  st_rdev : Nat
  st_size : Int
  st_blksize : Int
  st_blocks : Int
  st_atime : Int
  st_mtime : Int
  st_ctime : Int
  deriving DecidableEq, Repr

/-- Calls into the backing library, with the arguments as the library sees
them: a path argument is the C string found at the pointer passed. -/
inductive Call where
  | lstat (path : List Nat)
  | access (path : List Nat) (mask : Int)
  | readlink (path : List Nat) (bufsiz : Nat)
  | opendir (path : List Nat)
  | closedir (dp : Int)
  | open2 (path : List Nat) (flags : Int)
  | open3 (path : List Nat) (flags : Int) (mode : Nat)
  | close (fd : Int)
  | mknod (path : List Nat) (mode : Nat) (rdev : Nat)
  | mkdir (path : List Nat) (mode : Nat)
  | unlink (path : List Nat)
  | rmdir (path : List Nat)
  | symlink (src : List Nat) (dst : List Nat)
  | rename (src : List Nat) (dst : List Nat)
  | link (src : List Nat) (dst : List Nat)
  | chmod (path : List Nat) (mode : Nat)
  | chown (path : List Nat) (uid : Nat) (gid : Nat)
  | truncate (path : List Nat) (size : Int)
  | utime (path : List Nat) (actime : Int) (modtime : Int)
  | pread (fd : Int) (buf : List Nat) (size : Nat) (offset : Int)
  | pwrite (fd : Int) (buf : List Nat) (size : Nat) (offset : Int)
  | statvfs (path : List Nat)
  | fsync (fd : Int)
  deriving DecidableEq, Repr

/-- What a backing-library call hands back: its return value (for `opendir`
the handle, 0 being `NULL`), the value of `errno` after the call, the bytes
it stored through its output pointer and, for `opendir`, the entries the
opened stream will yield. -/
structure Reply where
  ret : Int
  errno : Int
  out : List Nat
  entries : List Dirent
  deriving DecidableEq, Repr

/-- The backing library: a transition function on its own state. -/
abbrev Sysio (σ : Type) := Call → σ → Reply × σ

/-- An open directory stream `DIR *`: its handle and the entries the backing
`readdir` has not yet returned; `readdir` returns them one by one, then `NULL`. -/
structure DIR where
  handle : Int
  pending : List Dirent
  deriving DecidableEq, Repr

/-- The framework's entry-accumulation callback `fuse_fill_dir_t`, with the
listing buffer `buf` as its state: name, status record and offset in, a
non-zero result when the buffer is full. -/
abbrev Filler (φ : Type) := φ → List Nat → Stat → Int → Int × φ

/-- The two fields of `struct fuse_file_info` the handlers touch. -/
structure fuse_file_info where
  flags : Int
  fh : Nat
  deriving DecidableEq, Repr

/-- A `struct timespec`. -/
structure timespec where
  tv_sec : Int
  tv_nsec : Int
  deriving DecidableEq, Repr

/-! ## The machine -/

/-- What the log records: an allocation and its size, a release, a call into
the backing library with its reply, a backing `readdir` on a stream with the
entry it returned (`none` for `NULL`), and a call of the filler with its
arguments and result. -/
inductive Event where
  | malloc (ptr : Nat) (size : Nat)
  | free (ptr : Nat)
  | sysio (call : Call) (reply : Reply)
  | readdir (dp : Int) (entry : Option Dirent)
  | filler (name : List Nat) (st : Stat) (off : Int) (ret : Int)
  deriving DecidableEq, Repr

/-- Process state seen by a handler. `heap` holds the live malloc blocks,
`brk` numbers the next block, `junk` is the indeterminate content of fresh
memory. -/
structure Machine (σ : Type) where
  lustre_mountpoint : List Nat
  heap : List (Nat × List Nat)
  brk : Nat
  junk : Nat → Nat
  errno : Int
  sysio : σ
  trace : List Event

/-- A computation on the machine; `none` is undefined behaviour. -/
def Exec (σ α : Type) := Machine σ → Option (α × Machine σ)

instance (σ : Type) : Monad (Exec σ) where
  pure a := fun m => some (a, m)
  bind x f := fun m =>
    match x m with
    | none => none
    | some (a, m1) => f a m1

/-- Lifting of a fallible pure step. -/
def liftOpt {σ α : Type} (o : Option α) : Exec σ α := fun m => o.map (fun a => (a, m))

/-- Content of a live block. -/
def heapGet (h : List (Nat × List Nat)) (p : Nat) : Option (List Nat) :=
  (h.find? (fun b => b.1 == p)).map (·.2)

/-- Replacement of the content of a live block. -/
def heapSet : List (Nat × List Nat) → Nat → List Nat → List (Nat × List Nat)
  | [], _, _ => []
  | b :: h, p, bytes => if b.1 == p then (p, bytes) :: h else b :: heapSet h p bytes

/-- Removal of a live block. -/
def heapDel : List (Nat × List Nat) → Nat → List (Nat × List Nat)
  | [], _ => []
  | b :: h, p => if b.1 == p then h else b :: heapDel h p

/-- The call `malloc(n)`: a fresh block of `n` bytes of indeterminate content.
Allocation is taken to succeed. -/
def malloc {σ : Type} (n : Nat) : Exec σ Nat := fun m =>
  some (m.brk, { m with heap := (m.brk, (List.range n).map m.junk) :: m.heap,
                        brk := m.brk + 1,
                        trace := m.trace ++ [Event.malloc m.brk n] })

/-- The call `free(p)`: the block must be live. -/
def free {σ : Type} (p : Nat) : Exec σ Unit := fun m =>
  match heapGet m.heap p with
  | none => none
  | some _ =>
    some ((), { m with heap := heapDel m.heap p, trace := m.trace ++ [Event.free p] })

/-- The string a path pointer designates, as a callee reads it. -/
def pathArg {σ : Type} (p : Nat) : Exec σ (List Nat) := fun m =>
  match heapGet m.heap p with
  | none => none
  | some bytes => (cstr bytes).map (fun s => (s, m))

/-- The call `memcpy(p + off, src, n)` into a live block. -/
def memcpyTo {σ : Type} (p off : Nat) (src : List Nat) (n : Nat) : Exec σ Unit := fun m =>
  match heapGet m.heap p with
  | none => none
  | some bytes =>
    (memcpy bytes off src n).map (fun b => ((), { m with heap := heapSet m.heap p b }))

/-- The assignment `p[i] = v` into a live block. -/
def storeTo {σ : Type} (p : Nat) (i : Nat) (v : Nat) : Exec σ Unit := fun m =>
  match heapGet m.heap p with
  | none => none
  | some bytes =>
    (store bytes i v).map (fun b => ((), { m with heap := heapSet m.heap p b }))

/-- The global `lustre_mountpoint`. -/
def mountpoint {σ : Type} : Exec σ (List Nat) := fun m => some (m.lustre_mountpoint, m)

/-- Read of `errno`. -/
def getErrno {σ : Type} : Exec σ Int := fun m => some (m.errno, m)

/-- A call into the backing library: it advances the library, sets `errno`
and is logged with its reply. -/
def sys {σ : Type} (L : Sysio σ) (c : Call) : Exec σ Reply := fun m =>
  let r := L c m.sysio
  some (r.1, { m with sysio := r.2, errno := r.1.errno,
                      trace := m.trace ++ [Event.sysio c r.1] })

/-! ## Path translation -/

/-- Source: `real_path`. The block is `strlen(path) + strlen(lustre_mountpoint)
+ 1` bytes; the sum is not reduced modulo 2^64, since two strings that lie in
one address space cannot have lengths adding up to 2^64. The copies and the
store of the terminator are checked against the bounds of the block. -/
def real_path {σ : Type} (path : List Nat) : Exec σ Nat := do
  let mp ← mountpoint
  let lp ← liftOpt (strlen path)
  let lm ← liftOpt (strlen mp)
  let real ← malloc (lp + lm + 1)
  memcpyTo real 0 mp lm
  memcpyTo real lm path lp
  storeTo real (lm + lp) 0
  pure real

/-! ## Operation handlers -/

/-- Source: `lfuse_getattr`. The status buffer goes to the library untouched. -/
def lfuse_getattr {σ : Type} (L : Sysio σ) (path : List Nat) : Exec σ Int := do
  let path ← real_path path
  let arg ← pathArg path
  let rep ← sys L (Call.lstat arg)
  free path
  let e ← getErrno
  if rep.ret = -1 then pure (-e) else pure 0

/-- Source: `lfuse_access`. -/
def lfuse_access {σ : Type} (L : Sysio σ) (path : List Nat) (mask : Int) : Exec σ Int := do
  let path ← real_path path
  let arg ← pathArg path
  let rep ← sys L (Call.access arg mask)
  free path
  let e ← getErrno
  if rep.ret = -1 then pure (-e) else pure 0

/-- What a buffer holds after a callee stored `out` at its start; `none` when
the callee wrote past its end. -/
def bufWrite (buf out : List Nat) : Option (List Nat) :=
  if out.length ≤ buf.length then some (out ++ buf.drop out.length) else none

/-- Source: `lfuse_readlink`. `buf` is the framework's buffer and `size` the
size it announces; the result carries the buffer as the handler leaves it.
The count passed down is `size - 1` in `size_t`, the library's byte count is
narrowed to the `int res`. -/
def lfuse_readlink {σ : Type} (L : Sysio σ) (path : List Nat) (buf : List Nat) (size : Nat) :
    Exec σ (Int × List Nat) := do
  let path ← real_path path
  let arg ← pathArg path
  let rep ← sys L (Call.readlink arg (toUInt64 ((size : Int) - 1)))
  let buf ← liftOpt (bufWrite buf rep.out)
  let res := toInt32 rep.ret
  free path
  let e ← getErrno
  if res = -1 then pure (-e, buf)
  else do
    let buf ← liftOpt (storeAt buf res 0)
    pure (0, buf)

/-- Appends an event to the log. -/
def logEvent {σ : Type} (e : Event) : Exec σ Unit := fun m =>
  some ((), { m with trace := m.trace ++ [e] })

/-- The result of `memset(&st, 0, sizeof(st))`. -/
def Stat.zero : Stat :=
  { st_dev := 0, st_ino := 0, st_mode := 0, st_nlink := 0, st_uid := 0, st_gid := 0,
    st_rdev := 0, st_size := 0, st_blksize := 0, st_blocks := 0,
    st_atime := 0, st_mtime := 0, st_ctime := 0 }

/-- The status record `lfuse_readdir` builds for one entry. -/
def direntStat (de : Dirent) : Stat :=
  { Stat.zero with st_ino := de.d_ino, st_mode := de.d_type <<< 12 }

/-- The `while` loop of `lfuse_readdir` over the entries the stream still
holds: each turn reads one entry (the last read finds none) and hands it to
the filler, whose non-zero result breaks the loop. -/
def readdir_loop {σ φ : Type} (filler : Filler φ) (dp : Int) : List Dirent → φ → Exec σ φ
  | [], buf => do
    logEvent (Event.readdir dp none)
    pure buf
  | de :: rest, buf => do
    logEvent (Event.readdir dp (some de))
    let st := direntStat de
    let r := filler buf de.d_name st 0
    logEvent (Event.filler de.d_name st 0 r.1)
    if r.1 ≠ 0 then pure r.2 else readdir_loop filler dp rest r.2

/-- Source: `lfuse_readdir`. The listing buffer `buf` is the filler's state. -/
def lfuse_readdir {σ φ : Type} (L : Sysio σ) (path : List Nat) (buf : φ) (filler : Filler φ)
    (_offset : Int) (_fi : fuse_file_info) : Exec σ (Int × φ) := do
  let path ← real_path path
  let arg ← pathArg path
  let rep ← sys L (Call.opendir arg)
  let dp : DIR := { handle := rep.ret, pending := rep.entries }
  free path
  let e ← getErrno
  if dp.handle = 0 then pure (-e, buf)
  else do
    let buf ← readdir_loop filler dp.handle dp.pending buf
    let _ ← sys L (Call.closedir dp.handle)
    pure (0, buf)

/-- Source: `lfuse_mknod`. -/
def lfuse_mknod {σ : Type} (L : Sysio σ) (path : List Nat) (mode : Nat) (rdev : Nat) :
    Exec σ Int := do
  let path ← real_path path
  if S_ISREG mode then do
    let arg ← pathArg path
    let rep ← sys L (Call.open3 arg ((O_CREAT ||| O_EXCL ||| O_WRONLY : Nat) : Int) mode)
    let res ← if rep.ret ≥ 0 then (do let r ← sys L (Call.close rep.ret); pure r.ret)
              else pure rep.ret
    free path
    let e ← getErrno
    if res = -1 then pure (-e) else pure 0
  else if S_ISFIFO mode then
    pure (-ENOSYS)
  else do
    let arg ← pathArg path
    let rep ← sys L (Call.mknod arg mode rdev)
    free path
    let e ← getErrno
    if rep.ret = -1 then pure (-e) else pure 0

/-- Source: `lfuse_mkdir`. -/
def lfuse_mkdir {σ : Type} (L : Sysio σ) (path : List Nat) (mode : Nat) : Exec σ Int := do
  let path ← real_path path
  let arg ← pathArg path
  let rep ← sys L (Call.mkdir arg mode)
  free path
  let e ← getErrno
  if rep.ret = -1 then pure (-e) else pure 0

/-- Source: `lfuse_unlink`. -/
def lfuse_unlink {σ : Type} (L : Sysio σ) (path : List Nat) : Exec σ Int := do
  let path ← real_path path
  let arg ← pathArg path
  let rep ← sys L (Call.unlink arg)
  free path
  let e ← getErrno
  if rep.ret = -1 then pure (-e) else pure 0

/-- Source: `lfuse_rmdir`. -/
def lfuse_rmdir {σ : Type} (L : Sysio σ) (path : List Nat) : Exec σ Int := do
  let path ← real_path path
  let arg ← pathArg path
  let rep ← sys L (Call.rmdir arg)
  free path
  let e ← getErrno
  if rep.ret = -1 then pure (-e) else pure 0

/-- Source: `lfuse_symlink`. -/
def lfuse_symlink {σ : Type} (L : Sysio σ) (src dst : List Nat) : Exec σ Int := do
  let src ← real_path src
  let dst ← real_path dst
  let a ← pathArg src
  let b ← pathArg dst
  let rep ← sys L (Call.symlink a b)
  free src
  free dst
  let e ← getErrno
  if rep.ret = -1 then pure (-e) else pure 0

/-- Source: `lfuse_rename`. -/
def lfuse_rename {σ : Type} (L : Sysio σ) (src dst : List Nat) : Exec σ Int := do
  let src ← real_path src
  let dst ← real_path dst
  let a ← pathArg src
  let b ← pathArg dst
  let rep ← sys L (Call.rename a b)
  free src
  free dst
  let e ← getErrno
  if rep.ret = -1 then pure (-e) else pure 0

/-- Source: `lfuse_link`. -/
def lfuse_link {σ : Type} (L : Sysio σ) (src dst : List Nat) : Exec σ Int := do
  let src ← real_path src
  let dst ← real_path dst
  let a ← pathArg src
  let b ← pathArg dst
  let rep ← sys L (Call.link a b)
  free src
  free dst
  let e ← getErrno
  if rep.ret = -1 then pure (-e) else pure 0

/-- Source: `lfuse_chmod`. -/
def lfuse_chmod {σ : Type} (L : Sysio σ) (path : List Nat) (mode : Nat) : Exec σ Int := do
  let path ← real_path path
  let arg ← pathArg path
  let rep ← sys L (Call.chmod arg mode)
  free path
  let e ← getErrno
  if rep.ret = -1 then pure (-e) else pure 0

/-- Source: `lfuse_chown`. -/
def lfuse_chown {σ : Type} (L : Sysio σ) (path : List Nat) (uid gid : Nat) : Exec σ Int := do
  let path ← real_path path
  let arg ← pathArg path
  let rep ← sys L (Call.chown arg uid gid)
  free path
  let e ← getErrno
  if rep.ret = -1 then pure (-e) else pure 0

/-- Source: `lfuse_truncate`. -/
def lfuse_truncate {σ : Type} (L : Sysio σ) (path : List Nat) (size : Int) : Exec σ Int := do
  let path ← real_path path
  let arg ← pathArg path
  let rep ← sys L (Call.truncate arg size)
  free path
  let e ← getErrno
  if rep.ret = -1 then pure (-e) else pure 0

/-- Source: `lfuse_utimens`. `ts` is the two-element timestamp array. -/
def lfuse_utimens {σ : Type} (L : Sysio σ) (path : List Nat) (ts : Fin 2 → timespec) :
    Exec σ Int := do
  let actime := (ts 0).tv_sec
  let modtime := (ts 1).tv_sec
  let path ← real_path path
  let arg ← pathArg path
  let rep ← sys L (Call.utime arg actime modtime)
  free path
  let e ← getErrno
  if rep.ret = -1 then pure (-e) else pure 0

/-- Source: `lfuse_open`. The result carries the open-file context as the
handler leaves it; the `int` descriptor is converted to the 64-bit `fh`. -/
def lfuse_open {σ : Type} (L : Sysio σ) (path : List Nat) (fi : fuse_file_info) :
    Exec σ (Int × fuse_file_info) := do
  let path ← real_path path
  let arg ← pathArg path
  let rep ← sys L (Call.open2 arg fi.flags)
  free path
  let e ← getErrno
  if rep.ret = -1 then pure (-e, fi)
  else pure (0, { fi with fh := toUInt64 rep.ret })

/-- Source: `lfuse_read`. `int fd = fi->fh` narrows the 64-bit field, and the
library's byte count is narrowed to the `int res`. -/
def lfuse_read {σ : Type} (L : Sysio σ) (_path : List Nat) (buf : List Nat) (size : Nat)
    (offset : Int) (fi : fuse_file_info) : Exec σ Int := do
  let fd := toInt32 fi.fh
  if fd = 0 then pure (-EBADF)
  else do
    let rep ← sys L (Call.pread fd buf size offset)
    let res := toInt32 rep.ret
    let e ← getErrno
    if res = -1 then pure (-e) else pure res

/-- Source: `lfuse_write`. -/
def lfuse_write {σ : Type} (L : Sysio σ) (_path : List Nat) (buf : List Nat) (size : Nat)
    (offset : Int) (fi : fuse_file_info) : Exec σ Int := do
  let fd := toInt32 fi.fh
  if fd = 0 then pure (-EBADF)
  else do
    let rep ← sys L (Call.pwrite fd buf size offset)
    let res := toInt32 rep.ret
    let e ← getErrno
    if res = -1 then pure (-e) else pure res

/-- Source: `lfuse_statfs`. -/
def lfuse_statfs {σ : Type} (L : Sysio σ) (path : List Nat) : Exec σ Int := do
  let path ← real_path path
  let arg ← pathArg path
  let rep ← sys L (Call.statvfs arg)
  free path
  let e ← getErrno
  if rep.ret = -1 then pure (-e) else pure 0

/-- Source: `lfuse_release`. The 64-bit `fh` is tested as it is and narrowed
to the `int` parameter of `close`. -/
def lfuse_release {σ : Type} (L : Sysio σ) (_path : List Nat) (fi : fuse_file_info) :
    Exec σ Int := do
  if fi.fh = 0 then pure (-EBADF)
  else do
    let rep ← sys L (Call.close (toInt32 fi.fh))
    let e ← getErrno
    if rep.ret < 0 then pure (-e) else pure 0

/-- Source: `lfuse_fsync`. -/
def lfuse_fsync {σ : Type} (L : Sysio σ) (_path : List Nat) (_isdatasync : Int)
    (fi : fuse_file_info) : Exec σ Int := do
  if fi.fh = 0 then pure (-EBADF)
  else do
    let rep ← sys L (Call.fsync (toInt32 fi.fh))
    let e ← getErrno
    if rep.ret < 0 then pure (-e) else pure 0

/-! ## Reading the log, and concrete machines -/

/-- The backing-library calls of a log, in order. -/
def calls (t : List Event) : List Call :=
  t.filterMap (fun e => match e with
    | Event.sysio c _ => some c
    | _ => none)

/-- The filler invocations of a log, in order: name, status record, offset, result. -/
def fillerLog (t : List Event) : List (List Nat × Stat × Int × Int) :=
  t.filterMap (fun e => match e with
    | Event.filler name st off ret => some (name, st, off, ret)
    | _ => none)

/-- The directory reads of a log, in order: the entry read, or `none` at the end of the stream. -/
def readLog (t : List Event) : List (Option Dirent) :=
  t.filterMap (fun e => match e with
    | Event.readdir _ de => some de
    | _ => none)

/-- The blocks a log allocates, in order. -/
def allocs (t : List Event) : List Nat :=
  t.filterMap (fun e => match e with
    | Event.malloc p _ => some p
    | _ => none)

/-- The blocks a log releases, in order. -/
def frees (t : List Event) : List Nat :=
  t.filterMap (fun e => match e with
    | Event.free p => some p
    | _ => none)

/-- A backing library that replays a script of replies, one per call, and
fails with `ENOSYS` once the script is used up. -/
def scripted : Sysio (List Reply)
  | _, [] => ({ ret := -1, errno := ENOSYS, out := [], entries := [] }, [])
  | _, rep :: rest => (rep, rest)

/-- A reply that carries a return value only. -/
def Reply.ok (ret : Int) : Reply := { ret := ret, errno := 0, out := [], entries := [] }

/-- A failing reply: the sentinel -1 and an error code. -/
def Reply.fail (e : Int) : Reply := { ret := -1, errno := e, out := [], entries := [] }

/-- The machine at the first callback: mount root `root`, empty heap and log. -/
def boot {σ : Type} (root : List Nat) (s : σ) : Machine σ :=
  { lustre_mountpoint := root ++ [0], heap := [], brk := 0, junk := fun _ => 170,
    errno := 0, sysio := s, trace := [] }

/-- The machine after `real_path` translated `p` under mount root `r`: one
more live block, holding the translated path, and its allocation logged. -/
def translated {σ : Type} (m : Machine σ) (r p : List Nat) : Machine σ :=
  { m with heap := (m.brk, r ++ p ++ [0]) :: m.heap,
           brk := m.brk + 1,
           trace := m.trace ++ [Event.malloc m.brk (p.length + r.length + 1)] }

/-- Arguments of the filler invocations of a log: name, status record, offset. -/
def fillerArgs (t : List Event) : List (List Nat × Stat × Int) :=
  (fillerLog t).map (fun x => (x.1, x.2.1, x.2.2.1))

/-- Results of the filler invocations of a log. -/
def fillerRets (t : List Event) : List Int :=
  (fillerLog t).map (fun x => x.2.2.2)

/-- The listing buffer after the filler took the entries `es`, in order,
starting from `buf`. -/
def fed {φ : Type} (filler : Filler φ) (buf : φ) (es : List Dirent) : φ :=
  es.foldl (fun b e => (filler b e.d_name (direntStat e) 0).2) buf

/-- The results the filler gives on the entries `es` when they are handed to
it in order, starting from `buf`. -/
def verdicts {φ : Type} (filler : Filler φ) : φ → List Dirent → List Int
  | _, [] => []
  | buf, e :: es =>
    (filler buf e.d_name (direntStat e) 0).1 ::
      verdicts filler (filler buf e.d_name (direntStat e) 0).2 es

/-- The events of listing the entries `es` from `buf`: for each entry its read
from stream `dp`, then the call of the filler on it with the filler's result. -/
def listingEvents {φ : Type} (filler : Filler φ) (dp : Int) : φ → List Dirent → List Event
  | _, [] => []
  | buf, e :: es =>
    Event.readdir dp (some e) ::
      Event.filler e.d_name (direntStat e) 0 (filler buf e.d_name (direntStat e) 0).1 ::
      listingEvents filler dp (filler buf e.d_name (direntStat e) 0).2 es

/-- Whether a run of a handler from machine `m` released every block it
allocated: it returned, the heap is what it was, and the events it added to
the log allocate and release the same blocks. -/
def released {σ α : Type} (m : Machine σ) (run : Option (α × Machine σ)) : Bool :=
  match run with
  | none => false
  | some (_, m1) =>
    m1.heap == m.heap && m1.trace.take m.trace.length == m.trace &&
      allocs (m1.trace.drop m.trace.length) == frees (m1.trace.drop m.trace.length)

/-- Mount root "/m". -/
def demoRoot : List Nat := [47, 109]

/-- Virtual path "/f". -/
def demoPath : List Nat := [47, 102]

/-- A reply reporting `n` bytes stored, all of them the letter "a". -/
def Reply.bytes (n : Nat) : Reply :=
  { ret := n, errno := 0, out := List.replicate n 97, entries := [] }

/-- A successful `opendir`: handle 7 on a directory holding "a", "b" and "c". -/
def demoListing : Reply :=
  { ret := 7, errno := 0, out := [],
    entries := [{ d_ino := 11, d_type := 8, d_name := [97] },
                { d_ino := 12, d_type := 4, d_name := [98] },
                { d_ino := 13, d_type := 10, d_name := [99] }] }

/-- A filler that appends every name to the listing and never reports it full. -/
def demoFiller : Filler (List (List Nat)) := fun buf name _ _ => (0, buf ++ [name])

/-- A successful `readlink` of a link to "/target": 7 bytes stored. -/
def demoTarget : Reply :=
  { ret := 7, errno := 0, out := [47, 116, 97, 114, 103, 101, 116], entries := [] }

theorem strlen_append_nul (s t : List Nat) (h : 0 ∉ s) :
    strlen (s ++ 0 :: t) = some s.length := by
  induction s with
  | nil => simp [strlen]
  | cons b bs ih =>
    have hb : b ≠ 0 := fun e => h (by simp [e])
    have hbs : 0 ∉ bs := fun e => h (by simp [e])
    simp [strlen, hb, ih hbs]

theorem cstr_append_nul (s t : List Nat) (h : 0 ∉ s) : cstr (s ++ 0 :: t) = some s := by
  simp [cstr, strlen_append_nul s t h]

theorem heapGet_cons_self (p : Nat) (b : List Nat) (h : List (Nat × List Nat)) :
    heapGet ((p, b) :: h) p = some b := by
  simp [heapGet]

theorem heapSet_cons_self (p : Nat) (b c : List Nat) (h : List (Nat × List Nat)) :
    heapSet ((p, b) :: h) p c = (p, c) :: h := by
  simp [heapSet]

theorem heapDel_cons_self (p : Nat) (b : List Nat) (h : List (Nat × List Nat)) :
    heapDel ((p, b) :: h) p = h := by
  simp [heapDel]

theorem fill_block (blk r p t1 t2 : List Nat) (h : blk.length = p.length + r.length + 1) :
    ∃ b1 b2, memcpy blk 0 (r ++ 0 :: t1) r.length = some b1 ∧
      memcpy b1 r.length (p ++ 0 :: t2) p.length = some b2 ∧
      store b2 (r.length + p.length) 0 = some (r ++ p ++ [0]) := by
  refine ⟨r ++ blk.drop r.length, r ++ p ++ blk.drop (r.length + p.length), ?_, ?_, ?_⟩
  · simp [memcpy]; omega
  · simp [memcpy, List.take_append_eq_append_take]
    omega
  · have hd : (blk.drop (r.length + p.length)).length = 1 := by simp; omega
    obtain ⟨x, hx⟩ := List.length_eq_one.mp hd
    rw [hx]
    simp [store]

theorem real_path_eq {σ : Type} (m : Machine σ) (r p t1 t2 : List Nat)
    (hr : 0 ∉ r) (hp : 0 ∉ p) (hm : m.lustre_mountpoint = r ++ 0 :: t1) :
    real_path (p ++ 0 :: t2) m = some (m.brk, translated m r p) := by
  obtain ⟨b1, b2, h1, h2, h3⟩ :=
    fill_block ((List.range (p.length + r.length + 1)).map m.junk) r p t1 t2 (by simp)
  simp [real_path, bind, pure, mountpoint, liftOpt, malloc, memcpyTo, storeTo, hm,
    strlen_append_nul, hr, hp, heapGet_cons_self, heapSet_cons_self, h1, h2, h3, translated]

theorem pathArg_translated {σ : Type} (m : Machine σ) (r p : List Nat)
    (hr : 0 ∉ r) (hp : 0 ∉ p) :
    pathArg m.brk (translated m r p) = some (r ++ p, translated m r p) := by
  have h : 0 ∉ r ++ p := by simp [hr, hp]
  simp only [pathArg, translated, heapGet_cons_self, cstr_append_nul (r ++ p) [] h, Option.map]

theorem calls_append (a b : List Event) : calls (a ++ b) = calls a ++ calls b := by
  simp [calls, List.filterMap_append]

theorem fillerLog_append (a b : List Event) :
    fillerLog (a ++ b) = fillerLog a ++ fillerLog b := by
  simp [fillerLog, List.filterMap_append]

theorem readLog_append (a b : List Event) : readLog (a ++ b) = readLog a ++ readLog b := by
  simp [readLog, List.filterMap_append]

theorem toInt32_of_small (n : Int) (h0 : -2147483648 ≤ n) (h1 : n ≤ 2147483647) :
    toInt32 n = n := by
  unfold toInt32
  omega

theorem size_minus_one (size : Nat) (h1 : 1 ≤ size) (h2 : size < 18446744073709551616) :
    toUInt64 ((size : Int) - 1) = size - 1 := by
  unfold toUInt64
  omega

theorem storeAt_after (o : List Nat) (x : Nat) (t : List Nat) :
    storeAt (o ++ x :: t) (o.length : Int) 0 = some (o ++ 0 :: t) := by
  simp [storeAt, store]

theorem readdir_loop_spec {σ φ : Type} (filler : Filler φ) (dp : Int) (entries : List Dirent) :
    ∀ (buf : φ) (m : Machine σ), ∃ (k : Nat) (buf1 : φ) (new : List Event),
      readdir_loop filler dp entries buf m = some (buf1, { m with trace := m.trace ++ new }) ∧
      k ≤ entries.length ∧
      calls new = [] ∧
      fillerArgs new = (entries.take k).map (fun e => (e.d_name, direntStat e, 0)) ∧
      fillerRets new = verdicts filler buf (entries.take k) ∧
      buf1 = fed filler buf (entries.take k) ∧
      ((k = entries.length ∧ fillerRets new = List.replicate k 0 ∧
          readLog new = entries.map some ++ [none] ∧
          new = listingEvents filler dp buf entries ++ [Event.readdir dp none]) ∨
       (∃ x, x ≠ 0 ∧ 1 ≤ k ∧ fillerRets new = List.replicate (k - 1) 0 ++ [x] ∧
          readLog new = (entries.take k).map some ∧
          new = listingEvents filler dp buf (entries.take k))) := by
  induction entries with
  | nil =>
    intro buf m
    refine ⟨0, buf, [Event.readdir dp none], ?_, by simp, by simp [calls],
      by simp [fillerArgs, fillerLog], by simp [fillerRets, fillerLog, verdicts],
      by simp [fed], ?_⟩
    · simp [readdir_loop, bind, logEvent, pure]
    · left; simp [fillerRets, fillerLog, readLog, listingEvents]
  | cons de rest ih =>
    intro buf m
    by_cases hr : (filler buf de.d_name (direntStat de) 0).1 = 0
    · obtain ⟨k, buf1, new, hrun, hk, hcalls, hargs, hver, hfed, hstop⟩ :=
        ih (filler buf de.d_name (direntStat de) 0).2
          { m with trace := m.trace ++ [Event.readdir dp (some de)] ++
              [Event.filler de.d_name (direntStat de) 0
                (filler buf de.d_name (direntStat de) 0).1] }
      refine ⟨k + 1, buf1, [Event.readdir dp (some de),
          Event.filler de.d_name (direntStat de) 0 (filler buf de.d_name (direntStat de) 0).1]
          ++ new, ?_, by simpa using hk, ?_, ?_, ?_, ?_, ?_⟩
      · simp only [readdir_loop, bind, logEvent, pure, hr, ne_eq, not_true_eq_false, if_false]
        simp only [hr] at hrun
        rw [hrun]
        simp [List.append_assoc]
      · rw [calls_append, hcalls]; simp [calls]
      · simp only [fillerArgs, fillerLog_append, List.map_append] at hargs ⊢
        rw [hargs]
        simp [fillerLog]
      · simp only [fillerRets, fillerLog_append, List.map_append] at hver ⊢
        rw [hver]
        simp [fillerLog, verdicts]
      · rw [hfed]
        simp [fed]
      · rcases hstop with ⟨hk1, hrets, hreads, hnew⟩ | ⟨x, hx, hk1, hrets, hreads, hnew⟩
        · left
          refine ⟨by simp [hk1], ?_, ?_, ?_⟩
          · simp only [fillerRets, fillerLog_append, List.map_append] at hrets ⊢
            rw [hrets]
            simp [fillerLog, hr, List.replicate_succ]
          · rw [readLog_append, hreads]
            simp [readLog]
          · rw [hnew]
            simp [listingEvents]
        · right
          refine ⟨x, hx, by omega, ?_, ?_, ?_⟩
          · simp only [fillerRets, fillerLog_append, List.map_append] at hrets ⊢
            rw [hrets]
            obtain ⟨j, rfl⟩ : ∃ j, k = j + 1 := ⟨k - 1, by omega⟩
            simp [fillerLog, hr, List.replicate_succ]
          · rw [readLog_append, hreads]
            simp [readLog]
          · rw [hnew]
            simp [listingEvents]
    · refine ⟨1, (filler buf de.d_name (direntStat de) 0).2, [Event.readdir dp (some de),
          Event.filler de.d_name (direntStat de) 0 (filler buf de.d_name (direntStat de) 0).1],
          ?_, by simp, by simp [calls], by simp [fillerArgs, fillerLog],
          by simp [fillerRets, fillerLog, verdicts], by simp [fed], ?_⟩
      · simp [readdir_loop, bind, logEvent, pure, hr]
      · right
        exact ⟨_, hr, le_refl 1, by simp [fillerRets, fillerLog], by simp [readLog],
          by simp [listingEvents]⟩

theorem lfuse_readlink_negative_index {σ : Type} (L : Sysio σ) (m : Machine σ)
    (r p t1 t2 buf : List Nat) (size : Nat) (rep : Reply) (s1 : σ)
    (hr : 0 ∉ r) (hp : 0 ∉ p) (hm : m.lustre_mountpoint = r ++ 0 :: t1)
    (hcall : L (Call.readlink (r ++ p) (toUInt64 ((size : Int) - 1))) m.sysio = (rep, s1))
    (hout : rep.out.length ≤ buf.length) (hneg : toInt32 rep.ret < -1) :
    lfuse_readlink L (p ++ 0 :: t2) buf size m = none := by
  have hne : ¬ (toInt32 rep.ret = -1) := by omega
  have hlt : ¬ (0 ≤ toInt32 rep.ret) := by omega
  have hw : bufWrite buf rep.out = some (rep.out ++ buf.drop rep.out.length) := by
    simp only [bufWrite]
    rw [if_pos hout]
  simp only [lfuse_readlink, bind, real_path_eq m r p t1 t2 hr hp hm,
    pathArg_translated m r p hr hp]
  simp only [sys, hcall, liftOpt, hw, Option.map, hne, if_false, translated, free,
    heapGet_cons_self, heapDel_cons_self, getErrno, storeAt, hlt]

/-! ## Path translation (C1) -/

/-- C1: for a NUL-free mount root `r` and a NUL-free virtual path `p`,
`real_path` returns a block that holds exactly `r` followed by `p` and the
terminator: the string it designates is `r ++ p`, of length
`len r + len p`, with nothing inserted, changed or dropped. -/
theorem real_path_concat {σ : Type} (m : Machine σ) (r p t1 t2 : List Nat)
    (hr : 0 ∉ r) (hp : 0 ∉ p) (hm : m.lustre_mountpoint = r ++ 0 :: t1) :
    ∃ real m1 block, real_path (p ++ 0 :: t2) m = some (real, m1) ∧
      heapGet m1.heap real = some block ∧
      block = r ++ p ++ [0] ∧
      cstr block = some (r ++ p) ∧
      strlen block = some (r.length + p.length) := by
  have h : 0 ∉ r ++ p := by simp [hr, hp]
  refine ⟨m.brk, translated m r p, r ++ p ++ [0], real_path_eq m r p t1 t2 hr hp hm, ?_, rfl,
    cstr_append_nul (r ++ p) [] h, ?_⟩
  · simp [translated, heapGet_cons_self]
  · simpa using strlen_append_nul (r ++ p) [] h

/-- Witness for C1: root "/home/u/.mnt" and path "/a/b" give "/home/u/.mnt/a/b". -/
theorem real_path_concat_witness :
    ∃ real m1 block,
      real_path [47, 97, 47, 98, 0]
        (boot [47, 104, 111, 109, 101, 47, 117, 47, 46, 109, 110, 116] ()) = some (real, m1) ∧
      heapGet m1.heap real = some block ∧
      block = [47, 104, 111, 109, 101, 47, 117, 47, 46, 109, 110, 116] ++ [47, 97, 47, 98] ++ [0] ∧
      cstr block = some ([47, 104, 111, 109, 101, 47, 117, 47, 46, 109, 110, 116] ++ [47, 97, 47, 98]) ∧
      strlen block = some (12 + 4) :=
  real_path_concat (boot [47, 104, 111, 109, 101, 47, 117, 47, 46, 109, 110, 116] ())
    [47, 104, 111, 109, 101, 47, 117, 47, 46, 109, 110, 116] [47, 97, 47, 98] [] []
    (by decide) (by decide) rfl

/-! ## The unset descriptor (C2) -/

/-- C2: a context whose `fh` is 0 makes `lfuse_read`, `lfuse_write`,
`lfuse_release` and `lfuse_fsync` return `-EBADF` and leave the machine as it
was: no backing-library call is made, whatever the other arguments. -/
theorem unset_descriptor_rejected {σ : Type} (L : Sysio σ) (m : Machine σ)
    (path buf : List Nat) (size : Nat) (offset isdatasync flags : Int) :
    lfuse_read L path buf size offset { flags := flags, fh := 0 } m = some (-EBADF, m) ∧
    lfuse_write L path buf size offset { flags := flags, fh := 0 } m = some (-EBADF, m) ∧
    lfuse_release L path { flags := flags, fh := 0 } m = some (-EBADF, m) ∧
    lfuse_fsync L path isdatasync { flags := flags, fh := 0 } m = some (-EBADF, m) := by
  refine ⟨?_, ?_, ?_, ?_⟩ <;>
    simp [lfuse_read, lfuse_write, lfuse_release, lfuse_fsync, toInt32, pure]

/-! ## Open (C3) -/

/-- C3: `lfuse_open` makes exactly one backing call, `open` on the translated
path `r ++ p` with the context's flags. When that call returns -1 the
handler returns the negated error code and hands the context back as it was;
for every other result `d` (0 included) it returns 0 with `d` converted to the
64-bit `fh`, which is `d` itself when `d` is not negative. -/
theorem lfuse_open_result {σ : Type} (L : Sysio σ) (m : Machine σ) (r p t1 t2 : List Nat)
    (fi : fuse_file_info) (rep : Reply) (s1 : σ)
    (hr : 0 ∉ r) (hp : 0 ∉ p) (hm : m.lustre_mountpoint = r ++ 0 :: t1)
    (hcall : L (Call.open2 (r ++ p) fi.flags) m.sysio = (rep, s1)) :
    ∃ m1,
      lfuse_open L (p ++ 0 :: t2) fi m =
        some ((if rep.ret = -1 then (-rep.errno, fi)
               else (0, { fi with fh := toUInt64 rep.ret })), m1) ∧
      calls m1.trace = calls m.trace ++ [Call.open2 (r ++ p) fi.flags] ∧
      (0 ≤ rep.ret → rep.ret < 18446744073709551616 → ((toUInt64 rep.ret : Nat) : Int) = rep.ret) := by
  simp only [lfuse_open, bind, real_path_eq m r p t1 t2 hr hp hm, pathArg_translated m r p hr hp]
  simp only [sys, hcall, translated, free, heapGet_cons_self, heapDel_cons_self, getErrno, pure]
  have hconv : 0 ≤ rep.ret → rep.ret < 18446744073709551616 →
      ((toUInt64 rep.ret : Nat) : Int) = rep.ret := by
    intro h0 h1
    unfold toUInt64
    omega
  split
  · exact ⟨_, rfl, by simp [calls], hconv⟩
  · exact ⟨_, rfl, by simp [calls], hconv⟩

/-- Witness for C3: opening a file the library reports missing (`ENOENT`)
returns `-ENOENT` and leaves the context untouched. -/
theorem lfuse_open_result_witness :
    ∃ m1,
      lfuse_open scripted (demoPath ++ 0 :: []) { flags := 0, fh := 0 }
          (boot demoRoot [Reply.fail ENOENT]) =
        some ((if (Reply.fail ENOENT).ret = -1
               then (-(Reply.fail ENOENT).errno, { flags := 0, fh := 0 })
               else (0, { ({ flags := 0, fh := 0 } : fuse_file_info) with
                            fh := toUInt64 (Reply.fail ENOENT).ret })), m1) ∧
      calls m1.trace = calls (boot demoRoot [Reply.fail ENOENT]).trace ++
        [Call.open2 (demoRoot ++ demoPath) 0] ∧
      (0 ≤ (Reply.fail ENOENT).ret → (Reply.fail ENOENT).ret < 18446744073709551616 →
        ((toUInt64 (Reply.fail ENOENT).ret : Nat) : Int) = (Reply.fail ENOENT).ret) :=
  lfuse_open_result scripted (boot demoRoot [Reply.fail ENOENT]) demoRoot demoPath [] []
    { flags := 0, fh := 0 } (Reply.fail ENOENT) [] (by decide) (by decide) rfl rfl

/-! ## Node creation (C5) -/

/-- C7: when the backing `opendir` returns `NULL`, `lfuse_readdir` returns the
negated error code and neither the filler nor `closedir` nor `readdir` is
called. Otherwise, for the entries `e1..en` the opened stream yields, the
filler is applied to exactly `e1..ek`, in order, each with offset 0 and a
status record that is zero except `st_ino = d_ino` and `st_mode = d_type <<
12`; the results logged are the ones the filler gives (`verdicts`), the
listing buffer returned is the one the filler built (`fed`), and either the
filler returned 0 on all `n` entries (`k = n`, and the last read found the end
of the stream) or its first non-zero result came on entry `k` (and nothing was
read after it). `closedir` is applied once, last, to the opened handle, and
the handler returns 0. The log of the run is given event by event. -/
theorem lfuse_readdir_listing {σ φ : Type} (L : Sysio σ) (filler : Filler φ) (m : Machine σ)
    (r p t1 t2 : List Nat) (buf : φ) (offset : Int) (fi : fuse_file_info) (rep : Reply) (s1 : σ)
    (hr : 0 ∉ r) (hp : 0 ∉ p) (hm : m.lustre_mountpoint = r ++ 0 :: t1)
    (hopen : L (Call.opendir (r ++ p)) m.sysio = (rep, s1)) :
    (rep.ret = 0 →
      ∃ m1, lfuse_readdir L (p ++ 0 :: t2) buf filler offset fi m = some ((-rep.errno, buf), m1) ∧
        calls m1.trace = calls m.trace ++ [Call.opendir (r ++ p)] ∧
        fillerLog m1.trace = fillerLog m.trace ∧ readLog m1.trace = readLog m.trace ∧
        m1.trace = m.trace ++ [Event.malloc m.brk (p.length + r.length + 1),
          Event.sysio (Call.opendir (r ++ p)) rep, Event.free m.brk] ∧
        m1.sysio = s1 ∧ m1.heap = m.heap) ∧
    (rep.ret ≠ 0 →
      ∃ (k : Nat) (buf1 : φ) (m1 : Machine σ) (new : List Event),
        lfuse_readdir L (p ++ 0 :: t2) buf filler offset fi m = some ((0, buf1), m1) ∧
        m1.trace = m.trace ++ new ∧
        k ≤ rep.entries.length ∧
        fillerArgs new = (rep.entries.take k).map (fun e => (e.d_name, direntStat e, 0)) ∧
        ((k = rep.entries.length ∧ fillerRets new = List.replicate k 0 ∧
            readLog new = rep.entries.map some ++ [none] ∧
            new = [Event.malloc m.brk (p.length + r.length + 1),
                Event.sysio (Call.opendir (r ++ p)) rep, Event.free m.brk] ++
              listingEvents filler rep.ret buf rep.entries ++
              [Event.readdir rep.ret none,
               Event.sysio (Call.closedir rep.ret) (L (Call.closedir rep.ret) s1).1]) ∨
         (∃ x, x ≠ 0 ∧ 1 ≤ k ∧ fillerRets new = List.replicate (k - 1) 0 ++ [x] ∧
            readLog new = (rep.entries.take k).map some ∧
            new = [Event.malloc m.brk (p.length + r.length + 1),
                Event.sysio (Call.opendir (r ++ p)) rep, Event.free m.brk] ++
              listingEvents filler rep.ret buf (rep.entries.take k) ++
              [Event.sysio (Call.closedir rep.ret) (L (Call.closedir rep.ret) s1).1])) ∧
        calls new = [Call.opendir (r ++ p), Call.closedir rep.ret] ∧
        fillerRets new = verdicts filler buf (rep.entries.take k) ∧
        buf1 = fed filler buf (rep.entries.take k) ∧
        m1.sysio = (L (Call.closedir rep.ret) s1).2 ∧ m1.heap = m.heap) ∧
    (∀ e : Dirent,
      direntStat e = { Stat.zero with st_ino := e.d_ino, st_mode := e.d_type * 4096 }) := by
  refine ⟨?_, ?_, ?_⟩
  · intro h0
    simp only [lfuse_readdir, bind, real_path_eq m r p t1 t2 hr hp hm,
      pathArg_translated m r p hr hp]
    simp only [sys, hopen, translated, free, heapGet_cons_self, heapDel_cons_self, getErrno,
      h0, if_true, pure]
    exact ⟨_, rfl, by simp [calls], by simp [fillerLog], by simp [readLog], by simp, rfl, rfl⟩
  · intro h0
    simp only [lfuse_readdir, bind, real_path_eq m r p t1 t2 hr hp hm,
      pathArg_translated m r p hr hp]
    simp only [sys, hopen, translated, free, heapGet_cons_self, heapDel_cons_self, getErrno,
      h0, if_false, pure, bind]
    obtain ⟨k, buf1, new, hrun, hk, hcalls, hargs, hver, hfed, hstop⟩ :=
      readdir_loop_spec filler rep.ret rep.entries buf
        ({ m with brk := m.brk + 1, errno := rep.errno, sysio := s1,
                  trace := m.trace ++ [Event.malloc m.brk (p.length + r.length + 1)] ++
                    [Event.sysio (Call.opendir (r ++ p)) rep] ++ [Event.free m.brk] } : Machine σ)
    rw [hrun]
    refine ⟨k, buf1, _, [Event.malloc m.brk (p.length + r.length + 1),
      Event.sysio (Call.opendir (r ++ p)) rep, Event.free m.brk] ++ new ++
      [Event.sysio (Call.closedir rep.ret) (L (Call.closedir rep.ret) s1).1], rfl, ?_, hk, ?_, ?_,
      ?_, ?_, hfed, rfl, rfl⟩
    · simp [List.append_assoc]
    · simp only [fillerArgs, fillerLog_append, List.map_append] at hargs ⊢
      rw [hargs]
      simp [fillerLog]
    · rcases hstop with ⟨hk1, hrets, hreads, hnew⟩ | ⟨x, hx, hk1, hrets, hreads, hnew⟩
      · left
        refine ⟨hk1, ?_, ?_, ?_⟩
        · simp only [fillerRets, fillerLog_append, List.map_append] at hrets ⊢
          rw [hrets]
          simp [fillerLog]
        · simp only [readLog_append, hreads]
          simp [readLog]
        · rw [hnew]
          simp [List.append_assoc]
      · right
        refine ⟨x, hx, hk1, ?_, ?_, ?_⟩
        · simp only [fillerRets, fillerLog_append, List.map_append] at hrets ⊢
          rw [hrets]
          simp [fillerLog]
        · simp only [readLog_append, hreads]
          simp [readLog]
        · rw [hnew]
    · simp only [calls_append, hcalls]
      simp [calls]
    · simp only [fillerRets, fillerLog_append, List.map_append] at hver ⊢
      rw [hver]
      simp [fillerLog]
  · intro e
    simp [direntStat, Nat.shiftLeft_eq]

/-- Witness for C7: a directory holding "a", "b" and "c". -/
theorem lfuse_readdir_listing_witness :
    ∃ (k : Nat) (buf1 : List (List Nat)) (m1 : Machine (List Reply)) (new : List Event),
      lfuse_readdir scripted (demoPath ++ 0 :: []) [] demoFiller 0 { flags := 0, fh := 0 }
          (boot demoRoot [demoListing]) = some ((0, buf1), m1) ∧
      m1.trace = (boot demoRoot [demoListing]).trace ++ new ∧
      k ≤ demoListing.entries.length ∧
      fillerArgs new = (demoListing.entries.take k).map (fun e => (e.d_name, direntStat e, 0)) ∧
      ((k = demoListing.entries.length ∧ fillerRets new = List.replicate k 0 ∧
          readLog new = demoListing.entries.map some ++ [none] ∧
          new = [Event.malloc (boot demoRoot [demoListing]).brk
                  (demoPath.length + demoRoot.length + 1),
              Event.sysio (Call.opendir (demoRoot ++ demoPath)) demoListing,
              Event.free (boot demoRoot [demoListing]).brk] ++
            listingEvents demoFiller demoListing.ret [] demoListing.entries ++
            [Event.readdir demoListing.ret none,
             Event.sysio (Call.closedir demoListing.ret)
               (scripted (Call.closedir demoListing.ret) []).1]) ∨
       (∃ x, x ≠ 0 ∧ 1 ≤ k ∧ fillerRets new = List.replicate (k - 1) 0 ++ [x] ∧
          readLog new = (demoListing.entries.take k).map some ∧
          new = [Event.malloc (boot demoRoot [demoListing]).brk
                  (demoPath.length + demoRoot.length + 1),
              Event.sysio (Call.opendir (demoRoot ++ demoPath)) demoListing,
              Event.free (boot demoRoot [demoListing]).brk] ++
            listingEvents demoFiller demoListing.ret [] (demoListing.entries.take k) ++
            [Event.sysio (Call.closedir demoListing.ret)
               (scripted (Call.closedir demoListing.ret) []).1])) ∧
      calls new = [Call.opendir (demoRoot ++ demoPath), Call.closedir demoListing.ret] ∧
      fillerRets new = verdicts demoFiller [] (demoListing.entries.take k) ∧
      buf1 = fed demoFiller [] (demoListing.entries.take k) ∧
      m1.sysio = (scripted (Call.closedir demoListing.ret) []).2 ∧
      m1.heap = (boot demoRoot [demoListing]).heap :=
  (lfuse_readdir_listing scripted demoFiller (boot demoRoot [demoListing]) demoRoot demoPath
    [] [] [] 0 { flags := 0, fh := 0 } demoListing [] (by decide) (by decide) rfl rfl).2.1
    (by decide)

/-! ## Symlink read (C8) -/

/-- C8, amended: for a buffer of size `B` with `1 ≤ B`, `lfuse_readlink`
passes the count `B - 1` to the backing `readlink`. When that call returns a
byte count `n` with `n ≤ B - 1` and `n ≤ INT_MAX`, having stored `n` bytes,
the handler stores the terminator at index `n < B`, leaves the `n` bytes as
the library wrote them and returns 0. When the call returns -1 the handler
returns the negated error code and the buffer is as the library left it. -/
theorem lfuse_readlink_terminated {σ : Type} (L : Sysio σ) (m : Machine σ)
    (r p t1 t2 buf : List Nat) (size : Nat) (rep : Reply) (s1 : σ)
    (hr : 0 ∉ r) (hp : 0 ∉ p) (hm : m.lustre_mountpoint = r ++ 0 :: t1)
    (hpos : 1 ≤ size) (hsize : size < 18446744073709551616) (hbuf : buf.length = size)
    (hcall : L (Call.readlink (r ++ p) (size - 1)) m.sysio = (rep, s1)) :
    (∀ n : Nat, rep.ret = n → rep.out.length = n → n ≤ size - 1 → n ≤ 2147483647 →
      ∃ m1, lfuse_readlink L (p ++ 0 :: t2) buf size m =
          some ((0, rep.out ++ 0 :: buf.drop (n + 1)), m1) ∧
        n < size ∧
        calls m1.trace = calls m.trace ++ [Call.readlink (r ++ p) (size - 1)]) ∧
    (rep.ret = -1 → rep.out.length ≤ size →
      ∃ m1, lfuse_readlink L (p ++ 0 :: t2) buf size m =
          some ((-rep.errno, rep.out ++ buf.drop rep.out.length), m1) ∧
        calls m1.trace = calls m.trace ++ [Call.readlink (r ++ p) (size - 1)]) := by
  have hcount := size_minus_one size hpos hsize
  refine ⟨?_, ?_⟩
  · intro n hret hout hn hint
    have hres : toInt32 rep.ret = n := by rw [hret]; exact toInt32_of_small n (by omega) (by omega)
    have hne : ¬ ((n : Int) = -1) := by omega
    have hw : bufWrite buf rep.out = some (rep.out ++ buf.drop n) := by
      simp only [bufWrite, hout, hbuf]
      rw [if_pos (by omega)]
    have hst : storeAt (rep.out ++ buf.drop n) (n : Int) 0 = some (rep.out ++ 0 :: buf.drop (n + 1)) := by
      have hlen : n < buf.length := by omega
      have hd : buf.drop n = buf[n] :: buf.drop (n + 1) := List.drop_eq_getElem_cons hlen
      rw [hd]
      have h := storeAt_after rep.out buf[n] (buf.drop (n + 1))
      rw [hout] at h
      exact h
    simp only [lfuse_readlink, bind, real_path_eq m r p t1 t2 hr hp hm,
      pathArg_translated m r p hr hp]
    simp only [sys, hcount, hcall, liftOpt, hw, Option.map, hres, hne,
      if_false, translated, free, heapGet_cons_self, heapDel_cons_self, getErrno, hst, pure]
    refine ⟨_, rfl, by omega, ?_⟩
    simp [calls]
  · intro hret hout
    have hres : toInt32 rep.ret = -1 := by rw [hret]; rfl
    have hw : bufWrite buf rep.out = some (rep.out ++ buf.drop rep.out.length) := by
      simp only [bufWrite, hbuf]
      rw [if_pos hout]
    simp only [lfuse_readlink, bind, real_path_eq m r p t1 t2 hr hp hm,
      pathArg_translated m r p hr hp]
    simp only [sys, hcount, hcall, liftOpt, hw, Option.map, hres,
      if_true, translated, free, heapGet_cons_self, heapDel_cons_self, getErrno, pure]
    refine ⟨_, rfl, ?_⟩
    simp [calls]


/-- Counterexample to C8 as stated. With `B = 0` the count passed down is
`SIZE_MAX`, not at most `B - 1`, and the terminator of an empty result falls
outside the empty buffer. With `B = 2^32` and a result of `2^31` bytes (below
the count `B - 1`) the `int` index is negative and the terminator falls
outside the buffer as well. -/
theorem readlink_unbounded_size :
    (lfuse_readlink scripted (demoPath ++ [0]) [] 0 (boot demoRoot [Reply.fail ENOENT])).map
        (fun x => calls x.2.trace) =
      some [Call.readlink (demoRoot ++ demoPath) 18446744073709551615] ∧
    lfuse_readlink scripted (demoPath ++ [0]) [] 0 (boot demoRoot [Reply.ok 0]) = none ∧
    lfuse_readlink scripted (demoPath ++ 0 :: []) (List.replicate 4294967296 0) 4294967296
      (boot demoRoot [Reply.bytes 2147483648]) = none :=
  ⟨by decide, rfl,
   lfuse_readlink_negative_index scripted (boot demoRoot [Reply.bytes 2147483648])
    demoRoot demoPath [] [] (List.replicate 4294967296 0) 4294967296 (Reply.bytes 2147483648) []
    (by decide) (by decide) rfl rfl
    (by simp only [Reply.bytes, List.length_replicate]; decide) (by decide)⟩

/-- Witness for C8: a link to "/target" read into a buffer of size 8. -/
theorem lfuse_readlink_terminated_witness :
    ∃ m1, lfuse_readlink scripted (demoPath ++ 0 :: []) (List.replicate 8 255) 8
          (boot demoRoot [demoTarget]) =
        some ((0, demoTarget.out ++ 0 :: (List.replicate 8 255).drop (7 + 1)), m1) ∧
      7 < 8 ∧
      calls m1.trace = calls (boot demoRoot [demoTarget]).trace ++
        [Call.readlink (demoRoot ++ demoPath) (8 - 1)] :=
  (lfuse_readlink_terminated scripted (boot demoRoot [demoTarget]) demoRoot demoPath [] []
    (List.replicate 8 255) 8 demoTarget [] (by decide) (by decide) rfl (by decide) (by decide)
    rfl rfl).1 7 rfl rfl (by decide) (by decide)

/-! ## Timestamp update (C9) -/

/-- C10: when the backing `open` returns an `int` descriptor `d` other than -1
and 0, `lfuse_open` leaves the context with `fh = (uint64_t)d`, which is not 0
and narrows back to `d`. A later `lfuse_read`, `lfuse_write`, `lfuse_fsync` or
`lfuse_release` on that context applies the backing `pread`, `pwrite`, `fsync`
or `close` to descriptor `d` (with buffer, size and offset as given): the
library is advanced by that one call, `errno` is the one it set, the log gains
that call with its reply, and the handler's result is computed from the reply
(the narrowed byte count or the negated error code for read and write, 0 or
the negated error code for sync and release). -/
theorem descriptor_round_trip {σ : Type} (L : Sysio σ) (m : Machine σ) (r p t1 t2 : List Nat)
    (fi : fuse_file_info) (rep : Reply) (s1 : σ) (d : Int)
    (hr : 0 ∉ r) (hp : 0 ∉ p) (hm : m.lustre_mountpoint = r ++ 0 :: t1)
    (hcall : L (Call.open2 (r ++ p) fi.flags) m.sysio = (rep, s1))
    (hd : rep.ret = d) (hlo : -2147483648 ≤ d) (hhi : d ≤ 2147483647)
    (hne1 : d ≠ -1) (hne0 : d ≠ 0) :
    ∃ fi1 m1, lfuse_open L (p ++ 0 :: t2) fi m = some ((0, fi1), m1) ∧
      fi1.fh < 18446744073709551616 ∧ fi1.fh ≠ 0 ∧ toInt32 fi1.fh = d ∧
      fi1 = { fi with fh := toUInt64 d } ∧ m1.sysio = s1 ∧
      ∀ (m2 : Machine σ) (path buf : List Nat) (size : Nat) (offset isdatasync : Int),
        (∀ (a : Reply) (s2 : σ), L (Call.pread d buf size offset) m2.sysio = (a, s2) →
          ∃ m3, lfuse_read L path buf size offset fi1 m2 =
              some ((if toInt32 a.ret = -1 then -a.errno else toInt32 a.ret), m3) ∧
            calls m3.trace = calls m2.trace ++ [Call.pread d buf size offset] ∧
            m3.trace = m2.trace ++ [Event.sysio (Call.pread d buf size offset) a] ∧
            m3.sysio = s2 ∧ m3.errno = a.errno ∧ m3.heap = m2.heap) ∧
        (∀ (a : Reply) (s2 : σ), L (Call.pwrite d buf size offset) m2.sysio = (a, s2) →
          ∃ m3, lfuse_write L path buf size offset fi1 m2 =
              some ((if toInt32 a.ret = -1 then -a.errno else toInt32 a.ret), m3) ∧
            calls m3.trace = calls m2.trace ++ [Call.pwrite d buf size offset] ∧
            m3.trace = m2.trace ++ [Event.sysio (Call.pwrite d buf size offset) a] ∧
            m3.sysio = s2 ∧ m3.errno = a.errno ∧ m3.heap = m2.heap) ∧
        (∀ (a : Reply) (s2 : σ), L (Call.fsync d) m2.sysio = (a, s2) →
          ∃ m3, lfuse_fsync L path isdatasync fi1 m2 =
              some ((if a.ret < 0 then -a.errno else 0), m3) ∧
            calls m3.trace = calls m2.trace ++ [Call.fsync d] ∧
            m3.trace = m2.trace ++ [Event.sysio (Call.fsync d) a] ∧
            m3.sysio = s2 ∧ m3.errno = a.errno ∧ m3.heap = m2.heap) ∧
        (∀ (a : Reply) (s2 : σ), L (Call.close d) m2.sysio = (a, s2) →
          ∃ m3, lfuse_release L path fi1 m2 =
              some ((if a.ret < 0 then -a.errno else 0), m3) ∧
            calls m3.trace = calls m2.trace ++ [Call.close d] ∧
            m3.trace = m2.trace ++ [Event.sysio (Call.close d) a] ∧
            m3.sysio = s2 ∧ m3.errno = a.errno ∧ m3.heap = m2.heap) := by
  have hfh : toUInt64 d < 18446744073709551616 := by unfold toUInt64; omega
  have hfh0 : toUInt64 d ≠ 0 := by unfold toUInt64; omega
  have hback : toInt32 (toUInt64 d : Nat) = d := by unfold toInt32 toUInt64; omega
  refine ⟨{ fi with fh := toUInt64 d }, ?_⟩
  simp only [lfuse_open, bind, real_path_eq m r p t1 t2 hr hp hm, pathArg_translated m r p hr hp]
  simp only [sys, hcall, translated, free, heapGet_cons_self, heapDel_cons_self, getErrno, pure,
    hd, hne1, if_false]
  refine ⟨_, rfl, hfh, hfh0, hback, trivial, rfl, ?_⟩
  intro m2 path buf size offset isdatasync
  refine ⟨?_, ?_, ?_, ?_⟩
  · intro a s2 ha
    simp only [lfuse_read, hback, hne0, if_false, bind, sys, ha, getErrno, pure]
    split
    · exact ⟨_, rfl, by simp [calls], rfl, rfl, rfl, rfl⟩
    · exact ⟨_, rfl, by simp [calls], rfl, rfl, rfl, rfl⟩
  · intro a s2 ha
    simp only [lfuse_write, hback, hne0, if_false, bind, sys, ha, getErrno, pure]
    split
    · exact ⟨_, rfl, by simp [calls], rfl, rfl, rfl, rfl⟩
    · exact ⟨_, rfl, by simp [calls], rfl, rfl, rfl, rfl⟩
  · intro a s2 ha
    simp only [lfuse_fsync, hback, hfh0, if_false, bind, sys, ha, getErrno, pure]
    split
    · exact ⟨_, rfl, by simp [calls], rfl, rfl, rfl, rfl⟩
    · exact ⟨_, rfl, by simp [calls], rfl, rfl, rfl, rfl⟩
  · intro a s2 ha
    simp only [lfuse_release, hback, hfh0, if_false, bind, sys, ha, getErrno, pure]
    split
    · exact ⟨_, rfl, by simp [calls], rfl, rfl, rfl, rfl⟩
    · exact ⟨_, rfl, by simp [calls], rfl, rfl, rfl, rfl⟩


/-- Witness for C10: descriptor 3. -/
theorem descriptor_round_trip_witness :
    ∃ fi1 m1, lfuse_open scripted (demoPath ++ 0 :: []) { flags := 0, fh := 0 }
        (boot demoRoot [Reply.ok 3]) = some ((0, fi1), m1) ∧
      fi1.fh < 18446744073709551616 ∧ fi1.fh ≠ 0 ∧ toInt32 fi1.fh = 3 ∧
      fi1 = { ({ flags := 0, fh := 0 } : fuse_file_info) with fh := toUInt64 3 } ∧
      m1.sysio = [] ∧
      ∀ (m2 : Machine (List Reply)) (path buf : List Nat) (size : Nat) (offset isdatasync : Int),
        (∀ (a : Reply) (s2 : List Reply),
          scripted (Call.pread 3 buf size offset) m2.sysio = (a, s2) →
          ∃ m3, lfuse_read scripted path buf size offset fi1 m2 =
              some ((if toInt32 a.ret = -1 then -a.errno else toInt32 a.ret), m3) ∧
            calls m3.trace = calls m2.trace ++ [Call.pread 3 buf size offset] ∧
            m3.trace = m2.trace ++ [Event.sysio (Call.pread 3 buf size offset) a] ∧
            m3.sysio = s2 ∧ m3.errno = a.errno ∧ m3.heap = m2.heap) ∧
        (∀ (a : Reply) (s2 : List Reply),
          scripted (Call.pwrite 3 buf size offset) m2.sysio = (a, s2) →
          ∃ m3, lfuse_write scripted path buf size offset fi1 m2 =
              some ((if toInt32 a.ret = -1 then -a.errno else toInt32 a.ret), m3) ∧
            calls m3.trace = calls m2.trace ++ [Call.pwrite 3 buf size offset] ∧
            m3.trace = m2.trace ++ [Event.sysio (Call.pwrite 3 buf size offset) a] ∧
            m3.sysio = s2 ∧ m3.errno = a.errno ∧ m3.heap = m2.heap) ∧
        (∀ (a : Reply) (s2 : List Reply), scripted (Call.fsync 3) m2.sysio = (a, s2) →
          ∃ m3, lfuse_fsync scripted path isdatasync fi1 m2 =
              some ((if a.ret < 0 then -a.errno else 0), m3) ∧
            calls m3.trace = calls m2.trace ++ [Call.fsync 3] ∧
            m3.trace = m2.trace ++ [Event.sysio (Call.fsync 3) a] ∧
            m3.sysio = s2 ∧ m3.errno = a.errno ∧ m3.heap = m2.heap) ∧
        (∀ (a : Reply) (s2 : List Reply), scripted (Call.close 3) m2.sysio = (a, s2) →
          ∃ m3, lfuse_release scripted path fi1 m2 =
              some ((if a.ret < 0 then -a.errno else 0), m3) ∧
            calls m3.trace = calls m2.trace ++ [Call.close 3] ∧
            m3.trace = m2.trace ++ [Event.sysio (Call.close 3) a] ∧
            m3.sysio = s2 ∧ m3.errno = a.errno ∧ m3.heap = m2.heap) :=
  descriptor_round_trip scripted (boot demoRoot [Reply.ok 3]) demoRoot demoPath [] []
    { flags := 0, fh := 0 } (Reply.ok 3) [] 3 (by decide) (by decide) rfl rfl rfl
    (by decide) (by decide) (by decide) (by decide)

/-! ## Read and write (C4) -/

/-- Counterexample to C4 as stated: with size `2^31` and a backing byte count
`n = 2^31` (so `0 ≤ n ≤ size`), `lfuse_read` and `lfuse_write` return `-2^31`,
not `n`. -/
theorem read_count_narrowed :
    (scripted (Call.pread 3 [] 2147483648 0) [Reply.ok 2147483648]).1.ret = 2147483648 ∧
    (lfuse_read scripted demoPath [] 2147483648 0 { flags := 0, fh := 3 }
        (boot demoRoot [Reply.ok 2147483648])).map Prod.fst = some (-2147483648) ∧
    (lfuse_write scripted demoPath [] 2147483648 0 { flags := 0, fh := 3 }
        (boot demoRoot [Reply.ok 2147483648])).map Prod.fst = some (-2147483648) := by
  refine ⟨rfl, ?_, ?_⟩ <;> decide

/-- C4, amended: for a context whose descriptor (`fh` read as an `int`) is
not 0, `lfuse_read` and `lfuse_write` pass descriptor, buffer, size and offset
to the one backing `pread` or `pwrite`; when that call returns -1 the handler
returns the negated error code, and when it returns a byte count `n` with
`0 ≤ n ≤ INT_MAX` the handler returns `n`. -/
theorem read_write_result {σ : Type} (L : Sysio σ) (m : Machine σ) (path buf : List Nat)
    (size : Nat) (offset : Int) (fi : fuse_file_info)
    (hfd : toInt32 fi.fh ≠ 0) :
    (∀ (rep : Reply) (s1 : σ), L (Call.pread (toInt32 fi.fh) buf size offset) m.sysio = (rep, s1) →
      ∃ x m1, lfuse_read L path buf size offset fi m = some (x, m1) ∧
        calls m1.trace = calls m.trace ++ [Call.pread (toInt32 fi.fh) buf size offset] ∧
        (rep.ret = -1 → x = -rep.errno) ∧
        (0 ≤ rep.ret → rep.ret ≤ 2147483647 → x = rep.ret ∧ 0 ≤ x)) ∧
    (∀ (rep : Reply) (s1 : σ), L (Call.pwrite (toInt32 fi.fh) buf size offset) m.sysio = (rep, s1) →
      ∃ x m1, lfuse_write L path buf size offset fi m = some (x, m1) ∧
        calls m1.trace = calls m.trace ++ [Call.pwrite (toInt32 fi.fh) buf size offset] ∧
        (rep.ret = -1 → x = -rep.errno) ∧
        (0 ≤ rep.ret → rep.ret ≤ 2147483647 → x = rep.ret ∧ 0 ≤ x)) := by
  refine ⟨?_, ?_⟩
  · intro rep s1 hcall
    simp only [lfuse_read, hfd, if_false, bind, sys, hcall, getErrno, pure]
    split
    · rename_i h
      refine ⟨_, _, rfl, by simp [calls], fun _ => rfl, ?_⟩
      intro h0 h1
      rw [toInt32_of_small rep.ret (by omega) h1] at h
      omega
    · rename_i h
      refine ⟨_, _, rfl, by simp [calls], ?_, ?_⟩
      · intro h1
        rw [h1] at h
        exact absurd rfl h
      · intro h0 h1
        rw [toInt32_of_small rep.ret (by omega) h1]
        exact ⟨rfl, h0⟩
  · intro rep s1 hcall
    simp only [lfuse_write, hfd, if_false, bind, sys, hcall, getErrno, pure]
    split
    · rename_i h
      refine ⟨_, _, rfl, by simp [calls], fun _ => rfl, ?_⟩
      intro h0 h1
      rw [toInt32_of_small rep.ret (by omega) h1] at h
      omega
    · rename_i h
      refine ⟨_, _, rfl, by simp [calls], ?_, ?_⟩
      · intro h1
        rw [h1] at h
        exact absurd rfl h
      · intro h0 h1
        rw [toInt32_of_small rep.ret (by omega) h1]
        exact ⟨rfl, h0⟩


/-- Witness for C4: five bytes read through descriptor 3. -/
theorem read_write_result_witness :
    ∃ x m1, lfuse_read scripted demoPath [] 16 0 { flags := 0, fh := 3 }
        (boot demoRoot [Reply.ok 5]) = some (x, m1) ∧
      calls m1.trace = calls (boot demoRoot [Reply.ok 5]).trace ++
        [Call.pread (toInt32 ((3 : Nat) : Int)) [] 16 0] ∧
      ((Reply.ok 5).ret = -1 → x = -(Reply.ok 5).errno) ∧
      (0 ≤ (Reply.ok 5).ret → (Reply.ok 5).ret ≤ 2147483647 → x = (Reply.ok 5).ret ∧ 0 ≤ x) :=
  (read_write_result scripted (boot demoRoot [Reply.ok 5]) demoPath [] 16 0
    { flags := 0, fh := 3 } (by decide)).1 (Reply.ok 5) [] rfl

/-! ## Release of translated paths (C6) -/

theorem released_intro {σ α : Type} (m : Machine σ) (run : Option (α × Machine σ))
    (h : ∃ x m1 new, run = some (x, m1) ∧ m1.trace = m.trace ++ new ∧
      m1.heap = m.heap ∧ allocs new = frees new) :
    released m run = true := by
  obtain ⟨x, m1, new, hrun, htrace, hheap, hbal⟩ := h
  simp [released, hrun, htrace, hheap, hbal]

theorem heapGet_cons_ne (a p : Nat) (b : List Nat) (h : List (Nat × List Nat)) (hne : a ≠ p) :
    heapGet ((a, b) :: h) p = heapGet h p := by
  have hb : (a == p) = false := by simp [hne]
  simp [heapGet, List.find?, hb]

theorem heapDel_cons_ne (a p : Nat) (b : List Nat) (h : List (Nat × List Nat)) (hne : a ≠ p) :
    heapDel ((a, b) :: h) p = (a, b) :: heapDel h p := by
  simp [heapDel, hne]

theorem pathArg_translated_fst {σ : Type} (m : Machine σ) (r p q : List Nat)
    (hr : 0 ∉ r) (hp : 0 ∉ p) :
    pathArg m.brk (translated (translated m r p) r q) =
      some (r ++ p, translated (translated m r p) r q) := by
  have h : 0 ∉ r ++ p := by simp [hr, hp]
  simp only [pathArg, translated, heapGet_cons_ne (m.brk + 1) m.brk _ _ (Nat.succ_ne_self _),
    heapGet_cons_self, cstr_append_nul (r ++ p) [] h, Option.map]

theorem allocs_append (a b : List Event) : allocs (a ++ b) = allocs a ++ allocs b := by
  simp [allocs, List.filterMap_append]

theorem frees_append (a b : List Event) : frees (a ++ b) = frees a ++ frees b := by
  simp [frees, List.filterMap_append]

theorem readdir_loop_no_alloc {σ φ : Type} (filler : Filler φ) (dp : Int)
    (entries : List Dirent) :
    ∀ (buf : φ) (m : Machine σ), ∃ (buf1 : φ) (new : List Event),
      readdir_loop filler dp entries buf m = some (buf1, { m with trace := m.trace ++ new }) ∧
      allocs new = [] ∧ frees new = [] := by
  induction entries with
  | nil =>
    intro buf m
    exact ⟨buf, [Event.readdir dp none], by simp [readdir_loop, bind, logEvent, pure],
      by simp [allocs], by simp [frees]⟩
  | cons de rest ih =>
    intro buf m
    by_cases hr : (filler buf de.d_name (direntStat de) 0).1 = 0
    · obtain ⟨buf1, new, hrun, ha, hf⟩ :=
        ih (filler buf de.d_name (direntStat de) 0).2
          { m with trace := m.trace ++ [Event.readdir dp (some de)] ++
              [Event.filler de.d_name (direntStat de) 0
                (filler buf de.d_name (direntStat de) 0).1] }
      refine ⟨buf1, [Event.readdir dp (some de),
          Event.filler de.d_name (direntStat de) 0 (filler buf de.d_name (direntStat de) 0).1]
          ++ new, ?_, ?_, ?_⟩
      · simp only [readdir_loop, bind, logEvent, pure, hr, ne_eq, not_true_eq_false, if_false]
        simp only [hr] at hrun
        rw [hrun]
        simp [List.append_assoc]
      · rw [allocs_append, ha]; simp [allocs]
      · rw [frees_append, hf]; simp [frees]
    · exact ⟨(filler buf de.d_name (direntStat de) 0).2, [Event.readdir dp (some de),
          Event.filler de.d_name (direntStat de) 0 (filler buf de.d_name (direntStat de) 0).1],
          by simp [readdir_loop, bind, logEvent, pure, hr], by simp [allocs], by simp [frees]⟩

theorem single_released {σ : Type} (L : Sysio σ) (m : Machine σ) (r p : List Nat) (c : Call) :
    released m
      ((do
        let rep ← sys L c
        free m.brk
        let e ← getErrno
        if rep.ret = -1 then pure (-e) else pure 0 : Exec σ Int) (translated m r p)) = true := by
  simp only [bind, sys, translated, free, heapGet_cons_self, heapDel_cons_self, getErrno, pure]
  split
  · exact released_intro _ _ ⟨_, _, [Event.malloc m.brk (p.length + r.length + 1), Event.sysio c (L c m.sysio).1,
      Event.free m.brk], rfl, by simp, rfl, by simp [allocs, frees]⟩
  · exact released_intro _ _ ⟨_, _, [Event.malloc m.brk (p.length + r.length + 1), Event.sysio c (L c m.sysio).1,
      Event.free m.brk], rfl, by simp, rfl, by simp [allocs, frees]⟩

theorem double_released {σ : Type} (L : Sysio σ) (m : Machine σ) (r p q : List Nat) (c : Call) :
    released m
      ((do
        let rep ← sys L c
        free m.brk
        free (m.brk + 1)
        let e ← getErrno
        if rep.ret = -1 then pure (-e) else pure 0 : Exec σ Int)
        (translated (translated m r p) r q)) = true := by
  simp only [bind, sys, translated, free,
    heapGet_cons_ne (m.brk + 1) m.brk _ _ (Nat.succ_ne_self _),
    heapDel_cons_ne (m.brk + 1) m.brk _ _ (Nat.succ_ne_self _),
    heapGet_cons_self, heapDel_cons_self, getErrno, pure]
  split
  · exact released_intro _ _ ⟨_, _, [Event.malloc m.brk (p.length + r.length + 1),
      Event.malloc (m.brk + 1) (q.length + r.length + 1), Event.sysio c (L c m.sysio).1,
      Event.free m.brk, Event.free (m.brk + 1)], rfl, by simp, rfl, by simp [allocs, frees]⟩
  · exact released_intro _ _ ⟨_, _, [Event.malloc m.brk (p.length + r.length + 1),
      Event.malloc (m.brk + 1) (q.length + r.length + 1), Event.sysio c (L c m.sysio).1,
      Event.free m.brk, Event.free (m.brk + 1)], rfl, by simp, rfl, by simp [allocs, frees]⟩

theorem lfuse_getattr_released {σ : Type} (L : Sysio σ) (m : Machine σ) (r p t1 t2 : List Nat)
    (hr : 0 ∉ r) (hp : 0 ∉ p) (hm : m.lustre_mountpoint = r ++ 0 :: t1) :
    released m (lfuse_getattr L (p ++ 0 :: t2) m) = true := by
  simp only [lfuse_getattr, bind, real_path_eq m r p t1 t2 hr hp hm, pathArg_translated m r p hr hp]
  exact single_released L m r p (Call.lstat (r ++ p))

theorem lfuse_access_released {σ : Type} (L : Sysio σ) (m : Machine σ) (r p t1 t2 : List Nat) (mask : Int)
    (hr : 0 ∉ r) (hp : 0 ∉ p) (hm : m.lustre_mountpoint = r ++ 0 :: t1) :
    released m (lfuse_access L (p ++ 0 :: t2) mask m) = true := by
  simp only [lfuse_access, bind, real_path_eq m r p t1 t2 hr hp hm, pathArg_translated m r p hr hp]
  exact single_released L m r p (Call.access (r ++ p) mask)

theorem lfuse_mkdir_released {σ : Type} (L : Sysio σ) (m : Machine σ) (r p t1 t2 : List Nat) (mode : Nat)
    (hr : 0 ∉ r) (hp : 0 ∉ p) (hm : m.lustre_mountpoint = r ++ 0 :: t1) :
    released m (lfuse_mkdir L (p ++ 0 :: t2) mode m) = true := by
  simp only [lfuse_mkdir, bind, real_path_eq m r p t1 t2 hr hp hm, pathArg_translated m r p hr hp]
  exact single_released L m r p (Call.mkdir (r ++ p) mode)

theorem lfuse_unlink_released {σ : Type} (L : Sysio σ) (m : Machine σ) (r p t1 t2 : List Nat)
    (hr : 0 ∉ r) (hp : 0 ∉ p) (hm : m.lustre_mountpoint = r ++ 0 :: t1) :
    released m (lfuse_unlink L (p ++ 0 :: t2) m) = true := by
  simp only [lfuse_unlink, bind, real_path_eq m r p t1 t2 hr hp hm, pathArg_translated m r p hr hp]
  exact single_released L m r p (Call.unlink (r ++ p))

theorem lfuse_rmdir_released {σ : Type} (L : Sysio σ) (m : Machine σ) (r p t1 t2 : List Nat)
    (hr : 0 ∉ r) (hp : 0 ∉ p) (hm : m.lustre_mountpoint = r ++ 0 :: t1) :
    released m (lfuse_rmdir L (p ++ 0 :: t2) m) = true := by
  simp only [lfuse_rmdir, bind, real_path_eq m r p t1 t2 hr hp hm, pathArg_translated m r p hr hp]
  exact single_released L m r p (Call.rmdir (r ++ p))

theorem lfuse_chmod_released {σ : Type} (L : Sysio σ) (m : Machine σ) (r p t1 t2 : List Nat) (mode : Nat)
    (hr : 0 ∉ r) (hp : 0 ∉ p) (hm : m.lustre_mountpoint = r ++ 0 :: t1) :
    released m (lfuse_chmod L (p ++ 0 :: t2) mode m) = true := by
  simp only [lfuse_chmod, bind, real_path_eq m r p t1 t2 hr hp hm, pathArg_translated m r p hr hp]
  exact single_released L m r p (Call.chmod (r ++ p) mode)

theorem lfuse_chown_released {σ : Type} (L : Sysio σ) (m : Machine σ) (r p t1 t2 : List Nat) (uid gid : Nat)
    (hr : 0 ∉ r) (hp : 0 ∉ p) (hm : m.lustre_mountpoint = r ++ 0 :: t1) :
    released m (lfuse_chown L (p ++ 0 :: t2) uid gid m) = true := by
  simp only [lfuse_chown, bind, real_path_eq m r p t1 t2 hr hp hm, pathArg_translated m r p hr hp]
  exact single_released L m r p (Call.chown (r ++ p) uid gid)

theorem lfuse_truncate_released {σ : Type} (L : Sysio σ) (m : Machine σ) (r p t1 t2 : List Nat) (size : Int)
    (hr : 0 ∉ r) (hp : 0 ∉ p) (hm : m.lustre_mountpoint = r ++ 0 :: t1) :
    released m (lfuse_truncate L (p ++ 0 :: t2) size m) = true := by
  simp only [lfuse_truncate, bind, real_path_eq m r p t1 t2 hr hp hm, pathArg_translated m r p hr hp]
  exact single_released L m r p (Call.truncate (r ++ p) size)

theorem lfuse_utimens_released {σ : Type} (L : Sysio σ) (m : Machine σ) (r p t1 t2 : List Nat) (ts : Fin 2 → timespec)
    (hr : 0 ∉ r) (hp : 0 ∉ p) (hm : m.lustre_mountpoint = r ++ 0 :: t1) :
    released m (lfuse_utimens L (p ++ 0 :: t2) ts m) = true := by
  simp only [lfuse_utimens, bind, real_path_eq m r p t1 t2 hr hp hm, pathArg_translated m r p hr hp]
  exact single_released L m r p (Call.utime (r ++ p) (ts 0).tv_sec (ts 1).tv_sec)

theorem lfuse_statfs_released {σ : Type} (L : Sysio σ) (m : Machine σ) (r p t1 t2 : List Nat)
    (hr : 0 ∉ r) (hp : 0 ∉ p) (hm : m.lustre_mountpoint = r ++ 0 :: t1) :
    released m (lfuse_statfs L (p ++ 0 :: t2) m) = true := by
  simp only [lfuse_statfs, bind, real_path_eq m r p t1 t2 hr hp hm, pathArg_translated m r p hr hp]
  exact single_released L m r p (Call.statvfs (r ++ p))

theorem lfuse_symlink_released {σ : Type} (L : Sysio σ) (m : Machine σ)
    (r p q t1 t2 t3 : List Nat)
    (hr : 0 ∉ r) (hp : 0 ∉ p) (hq : 0 ∉ q) (hm : m.lustre_mountpoint = r ++ 0 :: t1) :
    released m (lfuse_symlink L (p ++ 0 :: t2) (q ++ 0 :: t3) m) = true := by
  have hm2 : (translated m r p).lustre_mountpoint = r ++ 0 :: t1 := hm
  have hb : (translated m r p).brk = m.brk + 1 := rfl
  have h2 := pathArg_translated (translated m r p) r q hr hq
  rw [hb] at h2
  simp only [lfuse_symlink, bind, real_path_eq m r p t1 t2 hr hp hm,
    real_path_eq (translated m r p) r q t1 t3 hr hq hm2,
    pathArg_translated_fst m r p q hr hp, hb, h2]
  exact double_released L m r p q (Call.symlink (r ++ p) (r ++ q))

theorem lfuse_rename_released {σ : Type} (L : Sysio σ) (m : Machine σ)
    (r p q t1 t2 t3 : List Nat)
    (hr : 0 ∉ r) (hp : 0 ∉ p) (hq : 0 ∉ q) (hm : m.lustre_mountpoint = r ++ 0 :: t1) :
    released m (lfuse_rename L (p ++ 0 :: t2) (q ++ 0 :: t3) m) = true := by
  have hm2 : (translated m r p).lustre_mountpoint = r ++ 0 :: t1 := hm
  have hb : (translated m r p).brk = m.brk + 1 := rfl
  have h2 := pathArg_translated (translated m r p) r q hr hq
  rw [hb] at h2
  simp only [lfuse_rename, bind, real_path_eq m r p t1 t2 hr hp hm,
    real_path_eq (translated m r p) r q t1 t3 hr hq hm2,
    pathArg_translated_fst m r p q hr hp, hb, h2]
  exact double_released L m r p q (Call.rename (r ++ p) (r ++ q))

theorem lfuse_link_released {σ : Type} (L : Sysio σ) (m : Machine σ)
    (r p q t1 t2 t3 : List Nat)
    (hr : 0 ∉ r) (hp : 0 ∉ p) (hq : 0 ∉ q) (hm : m.lustre_mountpoint = r ++ 0 :: t1) :
    released m (lfuse_link L (p ++ 0 :: t2) (q ++ 0 :: t3) m) = true := by
  have hm2 : (translated m r p).lustre_mountpoint = r ++ 0 :: t1 := hm
  have hb : (translated m r p).brk = m.brk + 1 := rfl
  have h2 := pathArg_translated (translated m r p) r q hr hq
  rw [hb] at h2
  simp only [lfuse_link, bind, real_path_eq m r p t1 t2 hr hp hm,
    real_path_eq (translated m r p) r q t1 t3 hr hq hm2,
    pathArg_translated_fst m r p q hr hp, hb, h2]
  exact double_released L m r p q (Call.link (r ++ p) (r ++ q))


theorem lfuse_open_released {σ : Type} (L : Sysio σ) (m : Machine σ) (r p t1 t2 : List Nat)
    (fi : fuse_file_info)
    (hr : 0 ∉ r) (hp : 0 ∉ p) (hm : m.lustre_mountpoint = r ++ 0 :: t1) :
    released m (lfuse_open L (p ++ 0 :: t2) fi m) = true := by
  simp only [lfuse_open, bind, real_path_eq m r p t1 t2 hr hp hm, pathArg_translated m r p hr hp]
  simp only [sys, translated, free, heapGet_cons_self, heapDel_cons_self, getErrno, pure]
  split
  · exact released_intro _ _ ⟨_, _, [Event.malloc m.brk (p.length + r.length + 1),
      Event.sysio (Call.open2 (r ++ p) fi.flags) (L (Call.open2 (r ++ p) fi.flags) m.sysio).1,
      Event.free m.brk], rfl, by simp, rfl, by simp [allocs, frees]⟩
  · exact released_intro _ _ ⟨_, _, [Event.malloc m.brk (p.length + r.length + 1),
      Event.sysio (Call.open2 (r ++ p) fi.flags) (L (Call.open2 (r ++ p) fi.flags) m.sysio).1,
      Event.free m.brk], rfl, by simp, rfl, by simp [allocs, frees]⟩

theorem lfuse_mknod_released {σ : Type} (L : Sysio σ) (m : Machine σ) (r p t1 t2 : List Nat)
    (mode rdev : Nat)
    (hr : 0 ∉ r) (hp : 0 ∉ p) (hm : m.lustre_mountpoint = r ++ 0 :: t1)
    (hf : S_ISFIFO mode = false) :
    released m (lfuse_mknod L (p ++ 0 :: t2) mode rdev m) = true := by
  by_cases hreg : S_ISREG mode = true
  · simp only [lfuse_mknod, bind, real_path_eq m r p t1 t2 hr hp hm,
      pathArg_translated m r p hr hp, hreg, if_true]
    by_cases h0 : 0 ≤ (L (Call.open3 (r ++ p) ((O_CREAT ||| O_EXCL ||| O_WRONLY : Nat) : Int)
        mode) m.sysio).1.ret
    · simp only [sys, translated, h0, ge_iff_le, if_true, bind, pure, free,
        heapGet_cons_self, heapDel_cons_self, getErrno]
      split
      · exact released_intro _ _ ⟨_, _, [_, _, _, _], rfl, by simp only [List.append_assoc]; rfl, rfl, by simp [allocs, frees]⟩
      · exact released_intro _ _ ⟨_, _, [_, _, _, _], rfl, by simp only [List.append_assoc]; rfl, rfl, by simp [allocs, frees]⟩
    · simp only [sys, translated, h0, ge_iff_le, if_false, bind, pure, free,
        heapGet_cons_self, heapDel_cons_self, getErrno]
      split
      · exact released_intro _ _ ⟨_, _, [_, _, _], rfl, by simp only [List.append_assoc]; rfl, rfl, by simp [allocs, frees]⟩
      · exact released_intro _ _ ⟨_, _, [_, _, _], rfl, by simp only [List.append_assoc]; rfl, rfl, by simp [allocs, frees]⟩
  · simp only [lfuse_mknod, bind, real_path_eq m r p t1 t2 hr hp hm,
      pathArg_translated m r p hr hp, hreg, hf, if_false, Bool.false_eq_true]
    exact single_released L m r p (Call.mknod (r ++ p) mode rdev)

theorem lfuse_readdir_released {σ φ : Type} (L : Sysio σ) (filler : Filler φ) (m : Machine σ)
    (r p t1 t2 : List Nat) (buf : φ) (offset : Int) (fi : fuse_file_info)
    (hr : 0 ∉ r) (hp : 0 ∉ p) (hm : m.lustre_mountpoint = r ++ 0 :: t1) :
    released m (lfuse_readdir L (p ++ 0 :: t2) buf filler offset fi m) = true := by
  obtain ⟨rep, s1, hopen⟩ : ∃ rep s1, L (Call.opendir (r ++ p)) m.sysio = (rep, s1) :=
    ⟨_, _, rfl⟩
  simp only [lfuse_readdir, bind, real_path_eq m r p t1 t2 hr hp hm,
    pathArg_translated m r p hr hp]
  by_cases h0 : rep.ret = 0
  · simp only [sys, hopen, translated, free, heapGet_cons_self, heapDel_cons_self, getErrno,
      h0, if_true, pure]
    exact released_intro _ _ ⟨_, _, [_, _, _], rfl, by simp only [List.append_assoc]; rfl, rfl,
      by simp [allocs, frees]⟩
  · simp only [sys, hopen, translated, free, heapGet_cons_self, heapDel_cons_self, getErrno,
      h0, if_false, pure, bind]
    obtain ⟨buf1, new, hrun, ha, hfr⟩ :=
      readdir_loop_no_alloc filler rep.ret rep.entries buf
        ({ m with brk := m.brk + 1, errno := rep.errno, sysio := s1,
                  trace := m.trace ++ [Event.malloc m.brk (p.length + r.length + 1)] ++
                    [Event.sysio (Call.opendir (r ++ p)) rep] ++ [Event.free m.brk] } : Machine σ)
    rw [hrun]
    refine released_intro _ _ ⟨_, _, [Event.malloc m.brk (p.length + r.length + 1),
      Event.sysio (Call.opendir (r ++ p)) rep, Event.free m.brk] ++ new ++ [_], rfl,
      by simp only [List.append_assoc]; rfl, rfl, ?_⟩
    simp only [allocs_append, frees_append, ha, hfr]
    simp [allocs, frees]

theorem lfuse_readlink_released {σ : Type} (L : Sysio σ) (m : Machine σ)
    (r p t1 t2 buf : List Nat) (size : Nat) (rep : Reply) (s1 : σ)
    (hr : 0 ∉ r) (hp : 0 ∉ p) (hm : m.lustre_mountpoint = r ++ 0 :: t1)
    (hcall : L (Call.readlink (r ++ p) (toUInt64 ((size : Int) - 1))) m.sysio = (rep, s1))
    (hout : rep.out.length ≤ buf.length)
    (hidx : toInt32 rep.ret = -1 ∨
      (0 ≤ toInt32 rep.ret ∧ (toInt32 rep.ret).toNat < buf.length)) :
    released m (lfuse_readlink L (p ++ 0 :: t2) buf size m) = true := by
  have hw : bufWrite buf rep.out = some (rep.out ++ buf.drop rep.out.length) := by
    simp only [bufWrite]
    rw [if_pos hout]
  simp only [lfuse_readlink, bind, real_path_eq m r p t1 t2 hr hp hm,
    pathArg_translated m r p hr hp]
  simp only [sys, hcall, liftOpt, hw, Option.map, translated, free,
    heapGet_cons_self, heapDel_cons_self, getErrno]
  rcases hidx with h1 | ⟨h0, hlt⟩
  · simp only [h1, if_true, pure]
    exact released_intro _ _ ⟨_, _, [_, _, _], rfl, by simp only [List.append_assoc]; rfl, rfl, by simp [allocs, frees]⟩
  · have hne : ¬ (toInt32 rep.ret = -1) := by omega
    have hlen : (toInt32 rep.ret).toNat < (rep.out ++ buf.drop rep.out.length).length := by
      simp only [List.length_append, List.length_drop]
      omega
    simp only [hne, if_false, storeAt, h0, if_true, store, hlen, pure, bind]
    exact released_intro _ _ ⟨_, _, [_, _, _], rfl, by simp only [List.append_assoc]; rfl, rfl, by simp [allocs, frees]⟩

/-- C6 at the failing input: creating a named pipe returns `-ENOSYS` with the
translated path allocated and never released; the block is still live when
the handler returns, so the run did not release what it allocated. -/
theorem lfuse_mknod_fifo_leak :
    (∃ m1, lfuse_mknod scripted (demoPath ++ [0]) (S_IFIFO ||| 420) 0 (boot demoRoot []) =
        some (-ENOSYS, m1) ∧
      allocs m1.trace = [0] ∧ frees m1.trace = [] ∧
      heapGet m1.heap 0 = some (demoRoot ++ demoPath ++ [0])) ∧
    released (boot demoRoot ([] : List Reply))
      (lfuse_mknod scripted (demoPath ++ [0]) (S_IFIFO ||| 420) 0 (boot demoRoot [])) = false :=
  ⟨⟨_, rfl, rfl, rfl, rfl⟩, by decide⟩

end LustreFuse
